import Mathlib

/-
  Verification of the segment-traversal engine of OpenMOC
  (src/TraverseSegments.cpp), shallowly embedded over exact
  rational arithmetic.  Machine doubles are modelled as ℚ;
  trigonometric values (cos θ, sin θ, cos φ) are passed as
  explicit rational parameters, mirroring the fact that the
  source only ever uses them through those three quantities.
-/

set_option maxHeartbeats 1000000

attribute [local semireducible] Rat.add Rat.mul Rat.sub Rat.inv

/-- Modelled from the spec: the fixed numerical suppression tolerance
    (the constant TINY_MOVE, defined in a header outside this source file);
    its upstream value is 1.0e-10. -/
def TINY_MOVE : ℚ := 1 / 10 ^ 10

/-- Loop body of TraverseSegments::findMeshIndex (the `while (imax - imin > 1)`
    binary search).  `fuel` is a totality device: the C loop always terminates
    because the gap `imax - imin` strictly shrinks, and every caller passes
    `fuel = size`, which is proven sufficient below. -/
def findMeshLoop (values : List ℚ) (val : ℚ) (sign : ℤ) :
    ℕ → ℕ → ℕ → Option ℕ
  | 0, _, _ => none
  | fuel + 1, imin, imax =>
    if imax - imin > 1 then
      let imid := (imin + imax) / 2
      if val > values.getD imid 0 then
        findMeshLoop values val sign fuel imid imax
      else if val < values.getD imid 0 then
        findMeshLoop values val sign fuel imin imid
      else if sign > 0 then some imid
      else some (imid - 1)
    else some imin

/-- TraverseSegments::findMeshIndex.  Returns `none` when the fatal
    out-of-range error is reported (log_printf(ERROR, ...) aborts the run). -/
def findMeshIndex (values : List ℚ) (size : ℕ) (val : ℚ) (sign : ℤ) :
    Option ℕ :=
  if val < values.getD 0 0 ∨ val > values.getD (size - 1) 0 then none
  else findMeshLoop values val sign size 0 (size - 1)

/-- The binary-search loop always produces a result given enough fuel. -/
theorem findMeshLoop_isSome (values : List ℚ) (val : ℚ) (sign : ℤ) :
    ∀ fuel imin imax, imax - imin < fuel →
      ∃ i, findMeshLoop values val sign fuel imin imax = some i := by
  intro fuel
  induction fuel with
  | zero => intro imin imax h; omega
  | succ fuel ih =>
    intro imin imax h
    simp only [findMeshLoop]
    by_cases hgap : imax - imin > 1
    · simp only [hgap, if_true]
      by_cases h1 : val > values.getD ((imin + imax) / 2) 0
      · simp only [h1, if_true]
        exact ih ((imin + imax) / 2) imax (by omega)
      · simp only [h1, if_false]
        by_cases h2 : val < values.getD ((imin + imax) / 2) 0
        · simp only [h2, if_true]
          exact ih imin ((imin + imax) / 2) (by omega)
        · simp only [h2, if_false]
          by_cases h3 : sign > 0
          · simp only [h3, if_true]; exact ⟨_, rfl⟩
          · simp only [h3, if_false]; exact ⟨_, rfl⟩
    · simp only [hgap, if_false]; exact ⟨imin, rfl⟩

/-- Core correctness of the binary-search loop: it stays inside the
    bracketing interval and returns a cell whose boundaries enclose `val`. -/
theorem findMeshLoop_spec (values : List ℚ) (size : ℕ) (val : ℚ) (sign : ℤ)
    (hmono : ∀ j, j < size → ∀ i, i < j →
      values.getD i 0 < values.getD j 0) :
    ∀ fuel imin imax, imin < imax → imax < size →
      values.getD imin 0 ≤ val → val ≤ values.getD imax 0 →
      imax - imin < fuel →
      ∃ i, findMeshLoop values val sign fuel imin imax = some i ∧
        imin ≤ i ∧ i < imax ∧
        values.getD i 0 ≤ val ∧ val ≤ values.getD (i + 1) 0 := by
  intro fuel
  induction fuel with
  | zero => intro imin imax _ _ _ _ h; omega
  | succ fuel ih =>
    intro imin imax hlt hsize hlo hhi hfuel
    simp only [findMeshLoop]
    by_cases hgap : imax - imin > 1
    · simp only [hgap, if_true]
      set imid := (imin + imax) / 2 with himid
      have hmid1 : imin < imid := by omega
      have hmid2 : imid < imax := by omega
      by_cases h1 : val > values.getD imid 0
      · simp only [h1, if_true]
        obtain ⟨i, heq, hi1, hi2, hi3, hi4⟩ :=
          ih imid imax hmid2 hsize (le_of_lt h1) hhi (by omega)
        exact ⟨i, heq, by omega, hi2, hi3, hi4⟩
      · simp only [h1, if_false]
        by_cases h2 : val < values.getD imid 0
        · simp only [h2, if_true]
          obtain ⟨i, heq, hi1, hi2, hi3, hi4⟩ :=
            ih imin imid hmid1 (by omega) hlo (le_of_lt h2) (by omega)
          exact ⟨i, heq, hi1, by omega, hi3, hi4⟩
        · have heqv : values.getD imid 0 = val := le_antisymm (not_lt.mp h2) (not_lt.mp h1)
          simp only [h2, if_false]
          by_cases h3 : sign > 0
          · simp only [h3, if_true]
            refine ⟨imid, rfl, by omega, hmid2, le_of_eq heqv, ?_⟩
            have := hmono (imid + 1) (by omega) imid (by omega)
            linarith
          · simp only [h3, if_false]
            refine ⟨imid - 1, rfl, by omega, by omega, ?_, ?_⟩
            · have := hmono imid (by omega) (imid - 1) (by omega)
              linarith
            · have : imid - 1 + 1 = imid := by omega
              rw [this, heqv]
    · simp only [hgap, if_false]
      have : imax = imin + 1 := by omega
      exact ⟨imin, rfl, le_refl _, by omega, hlo, by rw [← this]; exact hhi⟩

/-- Tie-break behaviour of the binary-search loop: when `val` equals an
    interior boundary value strictly inside the bracketing interval, the
    loop necessarily terminates via the exact-match branch at that boundary,
    returning the cell above for positive sign and the cell below otherwise. -/
theorem findMeshLoop_tie (values : List ℚ) (size : ℕ) (val : ℚ) (sign : ℤ)
    (hmono : ∀ j, j < size → ∀ i, i < j →
      values.getD i 0 < values.getD j 0) :
    ∀ fuel imin imax k, imin < k → k < imax → imax < size →
      val = values.getD k 0 →
      imax - imin < fuel →
      findMeshLoop values val sign fuel imin imax =
        some (if sign > 0 then k else k - 1) := by
  intro fuel
  induction fuel with
  | zero => intro imin imax k _ _ _ _ h; omega
  | succ fuel ih =>
    intro imin imax k hk1 hk2 hsize hval hfuel
    simp only [findMeshLoop]
    have hgap : imax - imin > 1 := by omega
    simp only [hgap, if_true]
    set imid := (imin + imax) / 2 with himid
    have hmid1 : imin < imid := by omega
    have hmid2 : imid < imax := by omega
    rcases lt_trichotomy imid k with hc | hc | hc
    · have h1 : val > values.getD imid 0 := by
        rw [hval]; exact hmono k (by omega) imid hc
      simp only [h1, if_true]
      exact ih imid imax k hc hk2 hsize hval (by omega)
    · subst hc
      have h1 : ¬ val > values.getD imid 0 := by rw [hval]; exact lt_irrefl _
      have h2 : ¬ val < values.getD imid 0 := by rw [hval]; exact lt_irrefl _
      simp only [h1, if_false, h2]
      by_cases h3 : sign > 0
      · simp only [h3, if_true]
      · simp only [h3, if_false]
    · have h1 : ¬ val > values.getD imid 0 := by
        rw [hval]
        exact not_lt.mpr (le_of_lt (hmono imid (by omega) k hc))
      have h2 : val < values.getD imid 0 := by
        rw [hval]; exact hmono imid (by omega) k hc
      simp only [h1, if_false, h2, if_true]
      exact ih imin imid k hk1 hc (by omega) hval (by omega)

/-- C2: for every strictly increasing boundary array of size ≥ 2 and every
    query value within the array's range, findMeshIndex returns an index i
    with values[i] ≤ val ≤ values[i+1]; on an exact interior boundary match
    a positive sign yields the cell above and a negative sign the cell below;
    concretely, on [0,1,2,3] query 1.5 returns 1 for either sign and query
    1.0 returns 1 with sign +1 and 0 with sign -1. -/
theorem findMeshIndex_locates_cell :
    (∀ (values : List ℚ) (val : ℚ) (sign : ℤ),
      (∀ j, j < values.length → ∀ i, i < j →
        values.getD i 0 < values.getD j 0) →
      2 ≤ values.length →
      values.getD 0 0 ≤ val → val ≤ values.getD (values.length - 1) 0 →
      ∃ i, findMeshIndex values values.length val sign = some i ∧
        i + 1 ≤ values.length - 1 ∧
        values.getD i 0 ≤ val ∧ val ≤ values.getD (i + 1) 0 ∧
        (∀ k, 0 < k → k < values.length - 1 → val = values.getD k 0 →
          (0 < sign → i = k) ∧ (sign < 0 → i = k - 1)))
    ∧ findMeshIndex [0, 1, 2, 3] 4 (3 / 2) 1 = some 1
    ∧ findMeshIndex [0, 1, 2, 3] 4 (3 / 2) (-1) = some 1
    ∧ findMeshIndex [0, 1, 2, 3] 4 1 1 = some 1
    ∧ findMeshIndex [0, 1, 2, 3] 4 1 (-1) = some 0 := by
  refine ⟨?_, by decide, by decide, by decide, by decide⟩
  intro values val sign hmono hsize hlo hhi
  have hnotout : ¬ (val < values.getD 0 0 ∨
      val > values.getD (values.length - 1) 0) := by
    push_neg; exact ⟨hlo, hhi⟩
  obtain ⟨i, heq, hi1, hi2, hi3, hi4⟩ :=
    findMeshLoop_spec values values.length val sign hmono values.length 0
      (values.length - 1) (by omega) (by omega) hlo hhi (by omega)
  refine ⟨i, ?_, by omega, hi3, hi4, ?_⟩
  · rw [findMeshIndex, if_neg hnotout]; exact heq
  · intro k hk1 hk2 hval
    have htie := findMeshLoop_tie values values.length val sign hmono
      values.length 0 (values.length - 1) k (by omega) (by omega) (by omega)
      hval (by omega)
    rw [heq] at htie
    constructor
    · intro hs
      have : (if sign > 0 then k else k - 1) = k := if_pos hs
      rw [this] at htie
      exact Option.some.inj htie
    · intro hs
      have : ¬ sign > 0 := by omega
      rw [if_neg this] at htie
      exact Option.some.inj htie

/-- C2 witness: the general cell-location property instantiated on the
    concrete array [0,1,2,3] with query 3/2 and sign +1. -/
theorem findMeshIndex_locates_cell_witness :
    ∃ i, findMeshIndex [0, 1, 2, 3] ([0, 1, 2, 3] : List ℚ).length (3 / 2) 1
        = some i ∧
      i + 1 ≤ ([0, 1, 2, 3] : List ℚ).length - 1 ∧
      ([0, 1, 2, 3] : List ℚ).getD i 0 ≤ 3 / 2 ∧
      (3 / 2 : ℚ) ≤ ([0, 1, 2, 3] : List ℚ).getD (i + 1) 0 ∧
      (∀ k, 0 < k → k < ([0, 1, 2, 3] : List ℚ).length - 1 →
        (3 / 2 : ℚ) = ([0, 1, 2, 3] : List ℚ).getD k 0 →
        ((0 : ℤ) < 1 → i = k) ∧ ((1 : ℤ) < 0 → i = k - 1)) :=
  findMeshIndex_locates_cell.1 [0, 1, 2, 3] (3 / 2) 1
    (by decide) (by decide) (by decide) (by decide)

/-- C6: findMeshIndex reports the fatal error (returns none) if and only if
    the query value is strictly below the first boundary or strictly above
    the last boundary; every in-range query completes with a result. -/
theorem findMeshIndex_error_iff_out_of_range :
    ∀ (values : List ℚ) (val : ℚ) (sign : ℤ),
      2 ≤ values.length →
      (findMeshIndex values values.length val sign = none ↔
        (val < values.getD 0 0 ∨
          values.getD (values.length - 1) 0 < val)) := by
  intro values val sign hsize
  rw [findMeshIndex]
  by_cases hout : val < values.getD 0 0 ∨
      val > values.getD (values.length - 1) 0
  · rw [if_pos hout]
    simp only [true_iff]
    exact hout
  · rw [if_neg hout]
    obtain ⟨i, heq⟩ := findMeshLoop_isSome values val sign values.length 0
      (values.length - 1) (by omega)
    rw [heq]
    constructor
    · intro h; exact absurd h (Option.some_ne_none i)
    · intro hcontra; exact absurd hcontra hout

/-- C6 witness: the error-iff-out-of-range equivalence instantiated on the
    concrete array [0,2,5] with query 7 (above the top boundary). -/
theorem findMeshIndex_error_iff_out_of_range_witness :
    findMeshIndex [0, 2, 5] ([0, 2, 5] : List ℚ).length 7 1 = none ↔
      ((7 : ℚ) < ([0, 2, 5] : List ℚ).getD 0 0 ∨
        ([0, 2, 5] : List ℚ).getD (([0, 2, 5] : List ℚ).length - 1) 0 < 7) :=
  findMeshIndex_error_iff_out_of_range [0, 2, 5] 7 1 (by decide)

/-- C10: for every strictly increasing array of size ≥ 2 and in-range query,
    findMeshIndex returns a valid cell index in [0, size-2]; a query exactly
    equal to the top boundary returns size-2 and a query exactly equal to the
    bottom boundary returns 0 (in particular with signs +1 and -1
    respectively), silently clamping at the extreme boundaries instead of
    erroring. -/
theorem findMeshIndex_clamps_at_extremes :
    ∀ (values : List ℚ) (val : ℚ) (sign : ℤ),
      (∀ j, j < values.length → ∀ i, i < j →
        values.getD i 0 < values.getD j 0) →
      2 ≤ values.length →
      values.getD 0 0 ≤ val → val ≤ values.getD (values.length - 1) 0 →
      ∃ i, findMeshIndex values values.length val sign = some i ∧
        i ≤ values.length - 2 ∧
        (val = values.getD (values.length - 1) 0 → i = values.length - 2) ∧
        (val = values.getD 0 0 → i = 0) := by
  intro values val sign hmono hsize hlo hhi
  have hnotout : ¬ (val < values.getD 0 0 ∨
      val > values.getD (values.length - 1) 0) := by
    push_neg; exact ⟨hlo, hhi⟩
  obtain ⟨i, heq, hi1, hi2, hi3, hi4⟩ :=
    findMeshLoop_spec values values.length val sign hmono values.length 0
      (values.length - 1) (by omega) (by omega) hlo hhi (by omega)
  refine ⟨i, ?_, by omega, ?_, ?_⟩
  · rw [findMeshIndex, if_neg hnotout]; exact heq
  · intro htop
    by_contra hne
    have hlt : i + 1 < values.length - 1 := by omega
    have := hmono (values.length - 1) (by omega) (i + 1) (by omega)
    rw [← htop] at this
    linarith
  · intro hbot
    by_contra hne
    have hpos : 0 < i := by omega
    have := hmono i (by omega) 0 hpos
    rw [← hbot] at this
    linarith

/-- C10 witness: the valid-cell-index property instantiated on the concrete
    array [0,2,5] with query 5 (the top boundary) and sign +1. -/
theorem findMeshIndex_clamps_at_extremes_witness :
    ∃ i, findMeshIndex [0, 2, 5] ([0, 2, 5] : List ℚ).length 5 1 = some i ∧
      i ≤ ([0, 2, 5] : List ℚ).length - 2 ∧
      ((5 : ℚ) = ([0, 2, 5] : List ℚ).getD (([0, 2, 5] : List ℚ).length - 1) 0 →
        i = ([0, 2, 5] : List ℚ).length - 2) ∧
      ((5 : ℚ) = ([0, 2, 5] : List ℚ).getD 0 0 → i = 0) :=
  findMeshIndex_clamps_at_extremes [0, 2, 5] 5 1
    (by decide) (by decide) (by decide) (by decide)

/-- A 2D track segment (struct segment in the source; renamed because
    `segment` already names a Mathlib definition): length, extruded region
    id, and forward/backward CMFD surface tags. -/
structure TrackSegment where
  _length : ℚ
  _region_id : ℕ
  _cmfd_surface_fwd : ℤ
  _cmfd_surface_bwd : ℤ
deriving DecidableEq

/-- An extruded flat source region (ExtrudedFSR): its axial cell count, its
    axial boundary mesh, and per-cell FSR ids and material ids. -/
structure ExtrudedFSR where
  _num_fsrs : ℕ
  _mesh : List ℚ
  _fsr_ids : List ℕ
  _materials : List ℕ

/-- The CMFD acceleration-mesh collaborator: findCmfdSurfaceOTF takes a CMFD
    cell id, a height, and a surface hint, and returns the refined surface. -/
structure Cmfd where
  findCmfdSurfaceOTF : ℤ → ℚ → ℤ → ℤ

/-- The geometry collaborator consumed by the traversal routines. -/
structure Geometry where
  getExtrudedFSR : ℕ → ExtrudedFSR
  getCmfdCell : ℕ → ℤ
  cmfd : Option Cmfd

/-- One segment event passed to MOCKernel::execute:
    (length, material, region id, stack track index, fwd surface, bwd
    surface). -/
structure SegEvent where
  length : ℚ
  material : ℕ
  region_id : ℕ
  track_idx : ℤ
  cmfd_surface_fwd : ℤ
  cmfd_surface_bwd : ℤ
deriving DecidableEq

/-- Result of the per-ray on-the-fly transport: the emitted segment events,
    the suppressed (not emitted) candidate 3D lengths, and the final mutable
    state of traceSegmentsOTF (z_coord, z_ind, the segments_complete flag). -/
structure OTFResult where
  events : List SegEvent
  dropped : List ℚ
  z_coord : ℚ
  z_ind : ℤ
  complete : Bool
deriving DecidableEq

/-- The travel-direction sign (cos_theta > 0) - (cos_theta < 0). -/
def signOf (cos_theta : ℚ) : ℤ :=
  (if cos_theta > 0 then 1 else 0) - (if cos_theta < 0 then 1 else 0)

/-- The linear scan at the top of traceSegmentsOTF locating the 2D segment
    containing the ray's starting offset: returns the starting segment index
    and the start distance remaining within that segment. -/
def findStartSegment : List TrackSegment → ℚ → ℕ × ℚ
  | [], start_dist => (0, start_dist)
  | s :: rest, start_dist =>
    if start_dist > s._length then
      let r := findStartSegment rest (start_dist - s._length)
      (r.1 + 1, r.2)
    else (0, start_dist)

/-- The axial distance to the next z intersection in the travel direction
    (the first computation inside the transport loop of traceSegmentsOTF). -/
def zDist3D (mesh : List ℚ) (cos_theta : ℚ) (sign : ℤ) (z_coord : ℚ)
    (z_ind : ℤ) : ℚ :=
  if sign > 0 then (mesh.getD (z_ind + 1).toNat 0 - z_coord) / cos_theta
  else (mesh.getD z_ind.toNat 0 - z_coord) / cos_theta

/-- The values computed by one iteration of the transport loop of
    traceSegmentsOTF: the candidate 3D segment (emitted only when longer than
    the tolerance), the 2D distance consumed, and the updated z position and
    axial cell index. -/
structure OTFStep where
  candidate : SegEvent
  dist_2D : ℚ
  z_coord : ℚ
  z_ind : ℤ

/-- One iteration of the `while (remaining_length_2D > 0)` loop of
    traceSegmentsOTF: chooses the shorter of the distance to the axial
    crossing and the distance to the end of the 2D segment, resolves CMFD
    surfaces, and advances the axial height and cell index. -/
def otfStep (geo : Geometry) (fsr : ExtrudedFSR) (seg : TrackSegment)
    (mesh : List ℚ) (cos_theta sin_theta : ℚ) (sign : ℤ)
    (remaining z_coord : ℚ) (z_ind : ℤ) : OTFStep :=
  let z_dist_3D := zDist3D mesh cos_theta sign z_coord z_ind
  let seg_dist_3D := remaining / sin_theta
  let dist_2D :=
    if z_dist_3D ≤ seg_dist_3D then z_dist_3D * sin_theta else remaining
  let dist_3D := if z_dist_3D ≤ seg_dist_3D then z_dist_3D else seg_dist_3D
  let z_move : ℤ := if z_dist_3D ≤ seg_dist_3D then sign else 0
  let fsr_id := fsr._fsr_ids.getD z_ind.toNat 0
  let sp : ℤ × ℤ × ℚ :=
    match geo.cmfd with
    | some c =>
      if dist_3D > TINY_MOVE then
        let bwd0 : ℤ :=
          if seg._length - remaining ≤ TINY_MOVE then seg._cmfd_surface_bwd
          else -1
        let next_dist_3D := (remaining - dist_2D) / sin_theta
        let fwd0 : ℤ :=
          if z_move = 0 ∨ next_dist_3D ≤ TINY_MOVE then seg._cmfd_surface_fwd
          else -1
        let cmfd_cell := geo.getCmfdCell fsr_id
        let bwd := c.findCmfdSurfaceOTF cmfd_cell z_coord bwd0
        let z2 := z_coord + cos_theta * dist_3D
        let fwd := c.findCmfdSurfaceOTF cmfd_cell z2 fwd0
        (fwd, bwd, z2)
      else (-1, -1, z_coord + dist_3D * cos_theta)
    | none => (-1, -1, z_coord + dist_3D * cos_theta)
  ⟨⟨dist_3D, fsr._materials.getD z_ind.toNat 0, fsr_id, 0, sp.1, sp.2.1⟩,
    dist_2D, sp.2.2, z_ind + z_move⟩

/-- The `while (remaining_length_2D > 0)` transport loop of traceSegmentsOTF,
    for one 2D segment.  `fuel` is a totality device: whenever sign = ±1 the
    loop takes at most num_fsrs + 1 iterations because every non-final
    iteration moves z_ind one step in the direction of sign (the callers pass
    num_fsrs + 2); fuel exhaustion yields `none` (the C loop would not
    terminate only in the degenerate case cos_theta = 0, which valid 3D
    tracks exclude). -/
def transport2D (geo : Geometry) (fsr : ExtrudedFSR) (seg : TrackSegment)
    (mesh : List ℚ) (num_fsrs : ℕ) (cos_theta sin_theta : ℚ) (sign : ℤ) :
    ℕ → ℚ → ℚ → ℤ → Option OTFResult
  | 0, remaining, z_coord, z_ind =>
    if remaining > 0 then none else some ⟨[], [], z_coord, z_ind, false⟩
  | fuel + 1, remaining, z_coord, z_ind =>
    if remaining > 0 then
      let st := otfStep geo fsr seg mesh cos_theta sin_theta sign remaining
        z_coord z_ind
      let evs : List SegEvent :=
        if st.candidate.length > TINY_MOVE then [st.candidate] else []
      let drp : List ℚ :=
        if st.candidate.length > TINY_MOVE then [] else [st.candidate.length]
      let remaining2 := remaining - st.dist_2D
      if st.z_ind < 0 ∨ (num_fsrs : ℤ) ≤ st.z_ind then
        some ⟨evs, drp, st.z_coord,
          if st.z_ind < 0 then 0 else (num_fsrs : ℤ) - 1, true⟩
      else
        match transport2D geo fsr seg mesh num_fsrs cos_theta sin_theta sign
            fuel remaining2 st.z_coord st.z_ind with
        | none => none
        | some r =>
          some ⟨evs ++ r.events, drp ++ r.dropped, r.z_coord, r.z_ind,
            r.complete⟩
    else some ⟨[], [], z_coord, z_ind, false⟩

/-- The `for (int s=seg_start; ...)` loop of traceSegmentsOTF over the
    remaining 2D segments: carries the running start distance (consumed by
    the first segment), the first-segment flag, the active axial mesh with
    its cell count, and the mutable z position and cell index. -/
def traceSegsLoop (geo : Geometry) (globalMesh : Bool)
    (cos_theta sin_theta : ℚ) (sign : ℤ) :
    List TrackSegment → ℚ → Bool → List ℚ → ℕ → ℚ → ℤ → Option OTFResult
  | [], _, _, _, _, z_coord, z_ind => some ⟨[], [], z_coord, z_ind, false⟩
  | seg :: rest, start_dist, first, mesh, num_fsrs, z_coord, z_ind =>
    let fsr := geo.getExtrudedFSR seg._region_id
    let upd : Option (List ℚ × ℕ × ℤ) :=
      if first ∨ globalMesh then some (mesh, num_fsrs, z_ind)
      else
        match findMeshIndex fsr._mesh (fsr._num_fsrs + 1) z_coord sign with
        | none => none
        | some i => some (fsr._mesh, fsr._num_fsrs, (i : ℤ))
    match upd with
    | none => none
    | some (mesh2, nf2, zi2) =>
      let remaining := seg._length - start_dist
      match transport2D geo fsr seg mesh2 nf2 cos_theta sin_theta sign
          (nf2 + 2) remaining z_coord zi2 with
      | none => none
      | some r1 =>
        if r1.complete then some ⟨r1.events, r1.dropped, r1.z_coord,
          r1.z_ind, true⟩
        else
          match traceSegsLoop geo globalMesh cos_theta sin_theta sign rest 0
              false mesh2 nf2 r1.z_coord r1.z_ind with
          | none => none
          | some r2 =>
            some ⟨r1.events ++ r2.events, r1.dropped ++ r2.dropped,
              r2.z_coord, r2.z_ind, r2.complete⟩

/-- Inputs of TraverseSegments::traceSegmentsOTF: the flattened 2D track's
    segments, start x and cos(phi); the 3D track's start point (x, z) and
    polar-angle cosine/sine; the geometry; and the optional global z mesh
    with its size. -/
structure OTFInputs where
  segments_2D : List TrackSegment
  cos_phi : ℚ
  cos_theta : ℚ
  sin_theta : ℚ
  x_start_3D : ℚ
  x_start_2D : ℚ
  z_start : ℚ
  geometry : Geometry
  global_z_mesh : Option (ℕ × List ℚ)

/-- TraverseSegments::traceSegmentsOTF.  Emits the 3D segment events of one
    3D track by composing its 2D projection's segments with axial-mesh
    crossings; `none` models the fatal mesh-range error (or the unreachable
    divergent cos_theta = 0 case). -/
def traceSegmentsOTF (inp : OTFInputs) : Option OTFResult :=
  let sign := signOf inp.cos_theta
  let start_dist_2D := (inp.x_start_3D - inp.x_start_2D) / inp.cos_phi
  let sk := findStartSegment inp.segments_2D start_dist_2D
  let rest := inp.segments_2D.drop sk.1
  let nm : ℕ × List ℚ :=
    match inp.global_z_mesh with
    | some gm => gm
    | none =>
      let fsr := inp.geometry.getExtrudedFSR
        ((inp.segments_2D.getD sk.1 ⟨0, 0, -1, -1⟩)._region_id)
      (fsr._num_fsrs, fsr._mesh)
  match findMeshIndex nm.2 (nm.1 + 1) inp.z_start sign with
  | none => none
  | some zi =>
    traceSegsLoop inp.geometry inp.global_z_mesh.isSome inp.cos_theta
      inp.sin_theta sign rest sk.2 true nm.2 nm.1 inp.z_start (zi : ℤ)

/-- Sum of the lengths of a list of emitted segment events. -/
def sumLengths (l : List SegEvent) : ℚ := (l.map (fun e => e.length)).sum

/-- The candidate 3D length of one transport iteration is the shorter of the
    distance to the axial crossing and the distance to the 2D segment end. -/
theorem otfStep_length (geo : Geometry) (fsr : ExtrudedFSR)
    (seg : TrackSegment) (mesh : List ℚ) (cθ sθ : ℚ) (sign : ℤ)
    (r z : ℚ) (zi : ℤ) :
    (otfStep geo fsr seg mesh cθ sθ sign r z zi).candidate.length =
      if zDist3D mesh cθ sign z zi ≤ r / sθ then zDist3D mesh cθ sign z zi
      else r / sθ := rfl

/-- The 2D distance consumed by one transport iteration. -/
theorem otfStep_dist2D (geo : Geometry) (fsr : ExtrudedFSR)
    (seg : TrackSegment) (mesh : List ℚ) (cθ sθ : ℚ) (sign : ℤ)
    (r z : ℚ) (zi : ℤ) :
    (otfStep geo fsr seg mesh cθ sθ sign r z zi).dist_2D =
      if zDist3D mesh cθ sign z zi ≤ r / sθ then
        zDist3D mesh cθ sign z zi * sθ
      else r := rfl

/-- The axial index update of one transport iteration. -/
theorem otfStep_z_ind (geo : Geometry) (fsr : ExtrudedFSR)
    (seg : TrackSegment) (mesh : List ℚ) (cθ sθ : ℚ) (sign : ℤ)
    (r z : ℚ) (zi : ℤ) :
    (otfStep geo fsr seg mesh cθ sθ sign r z zi).z_ind =
      zi + (if zDist3D mesh cθ sign z zi ≤ r / sθ then sign else 0) := rfl

/-- Both CMFD branches move the axial height by cos_theta times the candidate
    3D length. -/
theorem otfStep_z_coord (geo : Geometry) (fsr : ExtrudedFSR)
    (seg : TrackSegment) (mesh : List ℚ) (cθ sθ : ℚ) (sign : ℤ)
    (r z : ℚ) (zi : ℤ) :
    (otfStep geo fsr seg mesh cθ sθ sign r z zi).z_coord =
      z + cθ * (otfStep geo fsr seg mesh cθ sθ sign r z zi).candidate.length := by
  rcases geo with ⟨ge, gc, cm⟩
  cases cm with
  | none => simp only [otfStep]; ring
  | some c =>
    simp only [otfStep]
    split_ifs <;> ring

/-- One transport iteration consumes exactly sin_theta times the candidate 3D
    length of 2D budget. -/
theorem otfStep_conservation (geo : Geometry) (fsr : ExtrudedFSR)
    (seg : TrackSegment) (mesh : List ℚ) (cθ sθ : ℚ) (sign : ℤ)
    (r z : ℚ) (zi : ℤ) (hs : sθ ≠ 0) :
    sθ * (otfStep geo fsr seg mesh cθ sθ sign r z zi).candidate.length =
      (otfStep geo fsr seg mesh cθ sθ sign r z zi).dist_2D := by
  rw [otfStep_length, otfStep_dist2D]
  split
  · ring
  · field_simp

/-- One transport iteration never consumes more 2D budget than remains. -/
theorem otfStep_dist2D_le (geo : Geometry) (fsr : ExtrudedFSR)
    (seg : TrackSegment) (mesh : List ℚ) (cθ sθ : ℚ) (sign : ℤ)
    (r z : ℚ) (zi : ℤ) (hs : 0 < sθ) :
    (otfStep geo fsr seg mesh cθ sθ sign r z zi).dist_2D ≤ r := by
  rw [otfStep_dist2D]
  split
  case isTrue h =>
    have := mul_le_mul_of_nonneg_right h (le_of_lt hs)
    calc zDist3D mesh cθ sign z zi * sθ ≤ r / sθ * sθ := this
    _ = r := by field_simp
  case isFalse h => exact le_refl r

/-- Summing event lengths distributes over list append. -/
theorem sumLengths_append (l1 l2 : List SegEvent) :
    sumLengths (l1 ++ l2) = sumLengths l1 + sumLengths l2 := by
  simp [sumLengths]

/-- Summing event lengths over the empty list. -/
theorem sumLengths_nil : sumLengths [] = 0 := rfl

/-- Summing event lengths over a cons cell. -/
theorem sumLengths_cons (e : SegEvent) (l : List SegEvent) :
    sumLengths (e :: l) = e.length + sumLengths l := by
  simp [sumLengths]

/-- Every event emitted by the transport loop has length strictly greater
    than the suppression tolerance. -/
theorem transport2D_events_gt_tiny (geo : Geometry) (fsr : ExtrudedFSR)
    (seg : TrackSegment) (mesh : List ℚ) (nf : ℕ) (cθ sθ : ℚ) (sign : ℤ) :
    ∀ fuel r z zi res,
      transport2D geo fsr seg mesh nf cθ sθ sign fuel r z zi = some res →
      ∀ ev ∈ res.events, TINY_MOVE < ev.length := by
  intro fuel
  induction fuel with
  | zero =>
    intro r z zi res h ev hev
    rw [transport2D] at h
    split at h
    · exact Option.noConfusion h
    · cases h; simp at hev
  | succ fuel ih =>
    intro r z zi res h ev hev
    rw [transport2D] at h
    by_cases hr : r > 0
    · rw [if_pos hr] at h
      simp only [] at h
      split at h
      · cases h
        simp only [List.mem_ite_nil_right] at hev
        obtain ⟨hgt, hev⟩ := hev
        simp only [List.mem_singleton] at hev
        subst hev
        exact hgt
      · split at h
        · exact Option.noConfusion h
        case _ r2 heq =>
          cases h
          rcases List.mem_append.mp hev with h1 | h2
          · simp only [List.mem_ite_nil_right] at h1
            obtain ⟨hgt, h1⟩ := h1
            simp only [List.mem_singleton] at h1
            subst h1
            exact hgt
          · exact ih _ _ _ _ heq ev h2
    · rw [if_neg hr] at h
      cases h; simp at hev

/-- Every candidate suppressed by the transport loop has length at most the
    suppression tolerance. -/
theorem transport2D_dropped_le_tiny (geo : Geometry) (fsr : ExtrudedFSR)
    (seg : TrackSegment) (mesh : List ℚ) (nf : ℕ) (cθ sθ : ℚ) (sign : ℤ) :
    ∀ fuel r z zi res,
      transport2D geo fsr seg mesh nf cθ sθ sign fuel r z zi = some res →
      ∀ d ∈ res.dropped, d ≤ TINY_MOVE := by
  intro fuel
  induction fuel with
  | zero =>
    intro r z zi res h d hd
    rw [transport2D] at h
    split at h
    · exact Option.noConfusion h
    · cases h; simp at hd
  | succ fuel ih =>
    intro r z zi res h d hd
    rw [transport2D] at h
    by_cases hr : r > 0
    · rw [if_pos hr] at h
      simp only [] at h
      split at h
      · cases h
        simp only [List.mem_ite_nil_left] at hd
        obtain ⟨hle, hd⟩ := hd
        simp only [List.mem_singleton] at hd
        subst hd
        exact not_lt.mp hle
      · split at h
        · exact Option.noConfusion h
        case _ r2 heq =>
          cases h
          rcases List.mem_append.mp hd with h1 | h2
          · simp only [List.mem_ite_nil_left] at h1
            obtain ⟨hle, h1⟩ := h1
            simp only [List.mem_singleton] at h1
            subst h1
            exact not_lt.mp hle
          · exact ih _ _ _ _ heq d h2
    · rw [if_neg hr] at h
      cases h; simp at hd

/-- Conservation of path length in the transport loop: when the loop
    finishes a 2D segment without hitting the axial boundary, the candidate
    3D lengths (emitted plus suppressed) sum exactly to the remaining 2D
    length divided by sin_theta. -/
theorem transport2D_conservation (geo : Geometry) (fsr : ExtrudedFSR)
    (seg : TrackSegment) (mesh : List ℚ) (nf : ℕ) (cθ sθ : ℚ) (sign : ℤ)
    (hs : 0 < sθ) :
    ∀ fuel r z zi res, 0 ≤ r →
      transport2D geo fsr seg mesh nf cθ sθ sign fuel r z zi = some res →
      res.complete = false →
      sθ * (sumLengths res.events + res.dropped.sum) = r := by
  intro fuel
  induction fuel with
  | zero =>
    intro r z zi res hr0 h hc
    rw [transport2D] at h
    split at h
    · exact Option.noConfusion h
    case isFalse hr =>
      cases h
      simp [sumLengths]
      linarith [not_lt.mp hr]
  | succ fuel ih =>
    intro r z zi res hr0 h hc
    rw [transport2D] at h
    by_cases hr : r > 0
    · rw [if_pos hr] at h
      simp only [] at h
      split at h
      · cases h; simp at hc
      · split at h
        · exact Option.noConfusion h
        case _ r2 heq =>
          cases h
          simp only at hc
          have hd2 := otfStep_dist2D_le geo fsr seg mesh cθ sθ sign r z zi hs
          have hih := ih _ _ _ _ (by linarith) heq hc
          have hcons := otfStep_conservation geo fsr seg mesh cθ sθ sign
            r z zi (ne_of_gt hs)
          by_cases hgt :
              (otfStep geo fsr seg mesh cθ sθ sign r z zi).candidate.length >
                TINY_MOVE
          · rw [if_pos hgt, if_pos hgt]
            simp only [sumLengths_append, sumLengths_cons, sumLengths_nil,
              List.sum_append, List.sum_cons, List.sum_nil]
            linear_combination hcons + hih
          · rw [if_neg hgt, if_neg hgt]
            simp only [sumLengths_append, sumLengths_cons, sumLengths_nil,
              List.sum_append, List.sum_cons, List.sum_nil]
            linear_combination hcons + hih
    · rw [if_neg hr] at h
      cases h
      simp [sumLengths]
      linarith [not_lt.mp hr]

/-- Every event emitted across the 2D-segment loop has length strictly
    greater than the suppression tolerance. -/
theorem traceSegsLoop_events_gt_tiny (geo : Geometry) (gm : Bool)
    (cθ sθ : ℚ) (sign : ℤ) :
    ∀ segs sd first mesh nf z zi res,
      traceSegsLoop geo gm cθ sθ sign segs sd first mesh nf z zi = some res →
      ∀ ev ∈ res.events, TINY_MOVE < ev.length := by
  intro segs
  induction segs with
  | nil =>
    intro sd first mesh nf z zi res h ev hev
    rw [traceSegsLoop] at h
    cases h; simp at hev
  | cons seg rest ih =>
    intro sd first mesh nf z zi res h ev hev
    rw [traceSegsLoop] at h
    simp only [] at h
    split at h
    · exact Option.noConfusion h
    case _ mesh2 nf2 zi2 hupd =>
      split at h
      · exact Option.noConfusion h
      case _ r1 heq1 =>
        split at h
        · cases h
          exact transport2D_events_gt_tiny geo _ seg mesh2 nf2 cθ sθ sign
            _ _ _ _ _ heq1 ev hev
        · split at h
          · exact Option.noConfusion h
          case _ r2 heq2 =>
            cases h
            rcases List.mem_append.mp hev with h1 | h2
            · exact transport2D_events_gt_tiny geo _ seg mesh2 nf2 cθ sθ sign
                _ _ _ _ _ heq1 ev h1
            · exact ih _ _ _ _ _ _ _ heq2 ev h2

/-- Every suppressed candidate across the 2D-segment loop has length at most
    the suppression tolerance. -/
theorem traceSegsLoop_dropped_le_tiny (geo : Geometry) (gm : Bool)
    (cθ sθ : ℚ) (sign : ℤ) :
    ∀ segs sd first mesh nf z zi res,
      traceSegsLoop geo gm cθ sθ sign segs sd first mesh nf z zi = some res →
      ∀ d ∈ res.dropped, d ≤ TINY_MOVE := by
  intro segs
  induction segs with
  | nil =>
    intro sd first mesh nf z zi res h d hd
    rw [traceSegsLoop] at h
    cases h; simp at hd
  | cons seg rest ih =>
    intro sd first mesh nf z zi res h d hd
    rw [traceSegsLoop] at h
    simp only [] at h
    split at h
    · exact Option.noConfusion h
    case _ mesh2 nf2 zi2 hupd =>
      split at h
      · exact Option.noConfusion h
      case _ r1 heq1 =>
        split at h
        · cases h
          exact transport2D_dropped_le_tiny geo _ seg mesh2 nf2 cθ sθ sign
            _ _ _ _ _ heq1 d hd
        · split at h
          · exact Option.noConfusion h
          case _ r2 heq2 =>
            cases h
            rcases List.mem_append.mp hd with h1 | h2
            · exact transport2D_dropped_le_tiny geo _ seg mesh2 nf2 cθ sθ sign
                _ _ _ _ _ heq1 d h1
            · exact ih _ _ _ _ _ _ _ heq2 d h2

/-- Conservation of path length across the 2D-segment loop: when the full
    loop completes with no early axial termination, the candidate 3D lengths
    (emitted plus suppressed) account exactly for the total remaining 2D
    length of the processed segments. -/
theorem traceSegsLoop_conservation (geo : Geometry) (gm : Bool)
    (cθ sθ : ℚ) (sign : ℤ) (hs : 0 < sθ) :
    ∀ segs sd first mesh nf z zi res,
      (∀ s ∈ segs, 0 ≤ s._length) →
      (match segs with
       | [] => sd = 0
       | s :: _ => sd ≤ s._length) →
      traceSegsLoop geo gm cθ sθ sign segs sd first mesh nf z zi = some res →
      res.complete = false →
      sθ * (sumLengths res.events + res.dropped.sum) =
        (segs.map (fun s => s._length)).sum - sd := by
  intro segs
  induction segs with
  | nil =>
    intro sd first mesh nf z zi res _ hsd h hc
    rw [traceSegsLoop] at h
    cases h
    simp [sumLengths, hsd]
  | cons seg rest ih =>
    intro sd first mesh nf z zi res hlen hsd h hc
    rw [traceSegsLoop] at h
    simp only [] at h
    split at h
    · exact Option.noConfusion h
    case _ mesh2 nf2 zi2 hupd =>
      split at h
      · exact Option.noConfusion h
      case _ r1 heq1 =>
        split at h
        case isTrue hc1 =>
          cases h; simp at hc
        case isFalse hc1 =>
          split at h
          · exact Option.noConfusion h
          case _ r2 heq2 =>
            cases h
            simp only [] at hc
            have h1 := transport2D_conservation geo _ seg mesh2 nf2 cθ sθ
              sign hs _ _ _ _ _
              (by have hsd2 : sd ≤ seg._length := hsd; linarith) heq1
              (by simpa using hc1)
            have h2 := ih 0 false mesh2 nf2 r1.z_coord r1.z_ind r2
              (fun s hsmem => hlen s (List.mem_cons_of_mem seg hsmem))
              (by cases rest with
                  | nil => rfl
                  | cons a l => exact hlen a (by simp))
              heq2 hc
            simp only [sumLengths_append, List.sum_append, List.map_cons,
              List.sum_cons]
            linear_combination h1 + h2

/-- The start-offset scan stops at a 2D segment at least as long as the
    remaining offset (whenever it stops inside the track). -/
theorem findStartSegment_le (segs : List TrackSegment) (d : ℚ) :
    ∀ s rest2, segs.drop (findStartSegment segs d).1 = s :: rest2 →
      (findStartSegment segs d).2 ≤ s._length := by
  induction segs generalizing d with
  | nil =>
    intro s rest2 h
    simp at h
  | cons a tail ih =>
    intro s rest2 h
    rw [findStartSegment] at h ⊢
    by_cases hgt : d > a._length
    · rw [if_pos hgt] at h ⊢
      simp only [List.drop_succ_cons] at h
      exact ih (d - a._length) s rest2 h
    · rw [if_neg hgt] at h ⊢
      simp only [List.drop_zero] at h
      cases h
      exact not_lt.mp hgt

/-- C3 (amended): for every successful run of traceSegmentsOTF with no early
    axial termination, the candidate 3D lengths — emitted events plus
    suppressed candidates — sum exactly to the ray's 2D path length beyond
    the starting offset divided by sin theta (no gaps and no overlaps), and
    every suppressed candidate is at most TINY_MOVE; the emitted sum alone
    can therefore fall short of the total by more than one tolerance when
    several candidates are suppressed. -/
theorem traceSegmentsOTF_covers_path :
    ∀ (inp : OTFInputs) (res : OTFResult),
      0 < inp.sin_theta →
      (∀ s ∈ inp.segments_2D, 0 ≤ s._length) →
      (findStartSegment inp.segments_2D
        ((inp.x_start_3D - inp.x_start_2D) / inp.cos_phi)).1 <
        inp.segments_2D.length →
      traceSegmentsOTF inp = some res →
      res.complete = false →
      inp.sin_theta * (sumLengths res.events + res.dropped.sum) =
        ((inp.segments_2D.drop (findStartSegment inp.segments_2D
          ((inp.x_start_3D - inp.x_start_2D) / inp.cos_phi)).1).map
            (fun s => s._length)).sum -
        (findStartSegment inp.segments_2D
          ((inp.x_start_3D - inp.x_start_2D) / inp.cos_phi)).2 ∧
      ∀ d ∈ res.dropped, d ≤ TINY_MOVE := by
  intro inp res hs hlen hk h hc
  rw [traceSegmentsOTF] at h
  simp only [] at h
  split at h
  · exact Option.noConfusion h
  case _ zi hzi =>
    constructor
    · have hne : inp.segments_2D.drop (findStartSegment inp.segments_2D
          ((inp.x_start_3D - inp.x_start_2D) / inp.cos_phi)).1 ≠ [] := by
        intro hnil
        rw [List.drop_eq_nil_iff] at hnil
        omega
      obtain ⟨s, r2, hd⟩ : ∃ s r2, inp.segments_2D.drop
          (findStartSegment inp.segments_2D
            ((inp.x_start_3D - inp.x_start_2D) / inp.cos_phi)).1 = s :: r2 := by
        cases hdd : inp.segments_2D.drop (findStartSegment inp.segments_2D
            ((inp.x_start_3D - inp.x_start_2D) / inp.cos_phi)).1 with
        | nil => exact absurd hdd hne
        | cons s r2 => exact ⟨s, r2, rfl⟩
      exact traceSegsLoop_conservation inp.geometry
        inp.global_z_mesh.isSome inp.cos_theta inp.sin_theta
        (signOf inp.cos_theta) hs _ _ _ _ _ _ _ _
        (fun s2 hs2 => hlen s2 (List.mem_of_mem_drop hs2))
        (by rw [hd]; exact findStartSegment_le inp.segments_2D _ s r2 hd)
        h hc
    · exact traceSegsLoop_dropped_le_tiny inp.geometry
        inp.global_z_mesh.isSome inp.cos_theta inp.sin_theta
        (signOf inp.cos_theta) _ _ _ _ _ _ _ _ h

/-- A one-cell extruded FSR with axial mesh [0, 10], used by the concrete
    instantiations below. -/
def exampleFSR : ExtrudedFSR := ⟨1, [0, 10], [0], [0]⟩

/-- A geometry with a single extruded FSR and no CMFD mesh, used by the
    concrete instantiations below. -/
def exampleGeo : Geometry := ⟨fun _ => exampleFSR, fun _ => 0, none⟩

/-- A concrete per-ray OTF input: one 2D segment of length 3/5,
    cos theta = 4/5, sin theta = 3/5, start height 5, global mesh [0, 10]. -/
def exampleInpA : OTFInputs :=
  ⟨[⟨3 / 5, 0, -1, -1⟩], 1, 4 / 5, 3 / 5, 0, 0, 5, exampleGeo,
    some (1, [0, 10])⟩

/-- The result of running traceSegmentsOTF on exampleInpA: a single emitted
    3D segment of length 1, ending at height 29/5 with no early
    termination. -/
def exampleResA : OTFResult := ⟨[⟨1, 0, 0, 0, -1, -1⟩], [], 29 / 5, 0, false⟩

/-- C3 witness: the exact path-coverage property instantiated on the
    concrete single-segment ray exampleInpA. -/
theorem traceSegmentsOTF_covers_path_witness :
    exampleInpA.sin_theta *
        (sumLengths exampleResA.events + exampleResA.dropped.sum) =
      ((exampleInpA.segments_2D.drop (findStartSegment exampleInpA.segments_2D
        ((exampleInpA.x_start_3D - exampleInpA.x_start_2D) /
          exampleInpA.cos_phi)).1).map (fun s => s._length)).sum -
      (findStartSegment exampleInpA.segments_2D
        ((exampleInpA.x_start_3D - exampleInpA.x_start_2D) /
          exampleInpA.cos_phi)).2 ∧
    ∀ d ∈ exampleResA.dropped, d ≤ TINY_MOVE :=
  traceSegmentsOTF_covers_path exampleInpA exampleResA (by decide) (by decide)
    (by decide) (by decide) (by decide)

/-- A concrete per-ray OTF input whose two 2D segments each project to a 3D
    candidate of length 9e-11, just below the tolerance: both candidates are
    suppressed although the ray's total 3D path length is 1.8e-10. -/
def exampleInpB : OTFInputs :=
  ⟨[⟨27 / (5 * 10 ^ 11), 0, -1, -1⟩, ⟨27 / (5 * 10 ^ 11), 0, -1, -1⟩],
    1, 4 / 5, 3 / 5, 0, 0, 5, exampleGeo, some (1, [0, 10])⟩

/-- C3 counterexample: a ray with no early axial termination whose emitted
    3D lengths sum to 0 while its total geometric 3D path length is
    18/10^11 = 1.8e-10, so the emitted sum differs from the total by more
    than the suppression tolerance TINY_MOVE = 1e-10. -/
theorem traceSegmentsOTF_tolerance_gap_counterexample :
    Option.map (fun r => (sumLengths r.events, r.complete))
        (traceSegmentsOTF exampleInpB) = some (0, false) ∧
    findStartSegment exampleInpB.segments_2D
        ((exampleInpB.x_start_3D - exampleInpB.x_start_2D) /
          exampleInpB.cos_phi) = (0, 0) ∧
    ((exampleInpB.segments_2D.map (fun s => s._length)).sum - 0) /
        exampleInpB.sin_theta = 18 / 10 ^ 11 ∧
    ¬ (|(0 : ℚ) - 18 / 10 ^ 11| ≤ TINY_MOVE) := by decide

/-- C7: whenever an iteration of the transport loop of traceSegmentsOTF
    crosses an axial boundary and the advanced cell index would leave the
    valid range [0, num_fsrs-1], the index is clamped to the nearest valid
    value (0 from below, num_fsrs-1 from above), the loop stops with the
    segments_complete flag set after producing at most that iteration's
    single candidate, and the outer loop then processes no further 2D
    segments: appending more 2D segments to a run that completed early
    leaves the result unchanged. -/
theorem traceSegmentsOTF_axial_clamp_stops :
    (∀ (geo : Geometry) (fsr : ExtrudedFSR) (seg : TrackSegment)
        (mesh : List ℚ) (nf : ℕ) (cθ sθ : ℚ) (sign : ℤ) (fuel : ℕ)
        (r z : ℚ) (zi : ℤ),
      0 < r →
      zDist3D mesh cθ sign z zi ≤ r / sθ →
      (zi + sign < 0 ∨ (nf : ℤ) ≤ zi + sign) →
      ∃ res, transport2D geo fsr seg mesh nf cθ sθ sign (fuel + 1) r z zi
          = some res ∧
        res.z_ind = (if zi + sign < 0 then 0 else (nf : ℤ) - 1) ∧
        res.complete = true ∧
        res.events.length + res.dropped.length = 1)
    ∧ (∀ (geo : Geometry) (gm : Bool) (cθ sθ : ℚ) (sign : ℤ)
        (segs rest : List TrackSegment) (sd : ℚ) (first : Bool)
        (mesh : List ℚ) (nf : ℕ) (z : ℚ) (zi : ℤ) (res : OTFResult),
      traceSegsLoop geo gm cθ sθ sign segs sd first mesh nf z zi = some res →
      res.complete = true →
      traceSegsLoop geo gm cθ sθ sign (segs ++ rest) sd first mesh nf z zi
        = some res) := by
  constructor
  · intro geo fsr seg mesh nf cθ sθ sign fuel r z zi hr hcross hout
    have hz := otfStep_z_ind geo fsr seg mesh cθ sθ sign r z zi
    rw [if_pos hcross] at hz
    rw [transport2D, if_pos hr]
    simp only []
    rw [hz, if_pos hout]
    refine ⟨_, rfl, rfl, rfl, ?_⟩
    by_cases hgt : (otfStep geo fsr seg mesh cθ sθ sign r z
        zi).candidate.length > TINY_MOVE
    · rw [if_pos hgt, if_pos hgt]; rfl
    · rw [if_neg hgt, if_neg hgt]; rfl
  · intro geo gm cθ sθ sign segs
    induction segs with
    | nil =>
      intro rest sd first mesh nf z zi res h hc
      rw [traceSegsLoop] at h
      cases h; simp at hc
    | cons seg segs ih =>
      intro rest sd first mesh nf z zi res h hc
      rw [traceSegsLoop] at h
      rw [List.cons_append, traceSegsLoop]
      simp only [] at h ⊢
      split at h
      · exact Option.noConfusion h
      case _ mesh2 nf2 zi2 hupd =>
        split at h
        · exact Option.noConfusion h
        case _ r1 heq1 =>
          split at h
          case isTrue hc1 =>
            rw [if_pos hc1]
            exact h
          case isFalse hc1 =>
            rw [if_neg hc1]
            split at h
            · exact Option.noConfusion h
            case _ r2 heq2 =>
              cases h
              simp only [] at hc
              rw [ih rest 0 false mesh2 nf2 r1.z_coord r1.z_ind r2 heq2 hc]

/-- C9 (amended): the transport loop of traceSegmentsOTF emits zero 3D
    segments for a 2D budget whose full 3D projection (remaining / sin
    theta) is at most the suppression tolerance, provided the travel
    direction is consistent (sign matches the sign of cos theta) and the
    axial position lies on the valid side of the next boundary in a
    monotone mesh; a 2D segment merely shorter than TINY_MOVE does not
    qualify, since its 3D projection can exceed the tolerance. -/
theorem transport2D_subtolerance_no_emission :
    ∀ (geo : Geometry) (fsr : ExtrudedFSR) (seg : TrackSegment)
      (mesh : List ℚ) (nf : ℕ) (cθ sθ : ℚ) (sign : ℤ) (fuel : ℕ)
      (r z : ℚ) (zi : ℤ) (res : OTFResult),
      0 < sθ →
      (sign = 1 ∧ 0 < cθ ∨ sign = -1 ∧ cθ < 0) →
      (∀ j, j < nf → mesh.getD j 0 ≤ mesh.getD (j + 1) 0) →
      0 ≤ r → r ≤ sθ * TINY_MOVE →
      0 ≤ zi → zi < (nf : ℤ) →
      (if sign = 1 then z ≤ mesh.getD (zi + 1).toNat 0
       else mesh.getD zi.toNat 0 ≤ z) →
      transport2D geo fsr seg mesh nf cθ sθ sign fuel r z zi = some res →
      res.events = [] := by
  intro geo fsr seg mesh nf cθ sθ sign fuel
  induction fuel with
  | zero =>
    intro r z zi res hs hsign hmono hr0 hrt hzi0 hzin hinv h
    rw [transport2D] at h
    split at h
    · exact Option.noConfusion h
    · cases h; rfl
  | succ fuel ih =>
    intro r z zi res hs hsign hmono hr0 hrt hzi0 hzin hinv h
    rw [transport2D] at h
    by_cases hr : r > 0
    swap
    · rw [if_neg hr] at h; cases h; rfl
    rw [if_pos hr] at h
    simp only [] at h
    -- the candidate of this iteration is below the tolerance
    have hrdiv : r / sθ ≤ TINY_MOVE := by
      rw [div_le_iff₀ hs]; linarith [hrt]
    have hlen : (otfStep geo fsr seg mesh cθ sθ sign r z
        zi).candidate.length ≤ TINY_MOVE := by
      rw [otfStep_length]
      split
      case isTrue hcross => linarith [hcross]
      case isFalse hcross => exact hrdiv
    have hnogt : ¬ ((otfStep geo fsr seg mesh cθ sθ sign r z
        zi).candidate.length > TINY_MOVE) := not_lt.mpr hlen
    rcases hsign with ⟨hs1, hc1⟩ | ⟨hs1, hc1⟩
    · -- sign = +1, travelling upward
      subst hs1
      have hcne : cθ ≠ 0 := ne_of_gt hc1
      have hzd : zDist3D mesh cθ 1 z zi =
          (mesh.getD (zi + 1).toNat 0 - z) / cθ := by
        simp [zDist3D]
      rw [if_pos rfl] at hinv
      have hzd0 : 0 ≤ zDist3D mesh cθ 1 z zi := by
        rw [hzd]; exact div_nonneg (by linarith) (le_of_lt hc1)
      split at h
      next hbound =>
        cases h; simp only [if_neg hnogt]
      next hbound =>
        split at h
        · exact Option.noConfusion h
        case _ r2 heq =>
          cases h
          push_neg at hbound
          obtain ⟨hb1, hb2⟩ := hbound
          have hd2le := otfStep_dist2D_le geo fsr seg mesh cθ sθ 1 r z zi hs
          have hd20 : 0 ≤ (otfStep geo fsr seg mesh cθ sθ 1 r z
              zi).dist_2D := by
            rw [otfStep_dist2D]
            split
            · exact mul_nonneg hzd0 (le_of_lt hs)
            · linarith
          have hr2 : r2.events = [] := by
            refine ih _ _ _ r2 hs (Or.inl ⟨rfl, hc1⟩) hmono (by linarith)
              (by linarith) hb1 hb2 ?_ heq
            rw [if_pos rfl]
            by_cases hcross : zDist3D mesh cθ 1 z zi ≤ r / sθ
            · have hzi2 : (otfStep geo fsr seg mesh cθ sθ 1 r z zi).z_ind =
                  zi + 1 := by rw [otfStep_z_ind, if_pos hcross]
              have hzc : (otfStep geo fsr seg mesh cθ sθ 1 r z zi).z_coord =
                  mesh.getD (zi + 1).toNat 0 := by
                rw [otfStep_z_coord, otfStep_length, if_pos hcross, hzd]
                field_simp
              rw [hzi2, hzc]
              rw [show (zi + 1 + 1).toNat = (zi + 1).toNat + 1 from by omega]
              refine hmono (zi + 1).toNat ?_
              rw [hzi2] at hb2
              omega
            · have hzi2 : (otfStep geo fsr seg mesh cθ sθ 1 r z zi).z_ind =
                  zi := by rw [otfStep_z_ind, if_neg hcross]; ring
              have hzc : (otfStep geo fsr seg mesh cθ sθ 1 r z zi).z_coord =
                  z + cθ * (r / sθ) := by
                rw [otfStep_z_coord, otfStep_length, if_neg hcross]
              rw [hzi2, hzc]
              have hlt := not_le.mp hcross
              rw [hzd] at hlt
              have := (lt_div_iff₀ hc1).mp hlt
              have hmc : cθ * (r / sθ) = r / sθ * cθ := mul_comm _ _
              linarith
          simp only [if_neg hnogt, List.nil_append, hr2]
    · -- sign = -1, travelling downward
      subst hs1
      have hcne : cθ ≠ 0 := ne_of_lt hc1
      have hzd : zDist3D mesh cθ (-1) z zi =
          (mesh.getD zi.toNat 0 - z) / cθ := by
        simp [zDist3D]
      rw [if_neg (by decide : ¬ (-1 : ℤ) = 1)] at hinv
      have hzd0 : 0 ≤ zDist3D mesh cθ (-1) z zi := by
        rw [hzd]
        exact div_nonneg_iff.mpr (Or.inr ⟨by linarith, le_of_lt hc1⟩)
      split at h
      next hbound =>
        cases h; simp only [if_neg hnogt]
      next hbound =>
        split at h
        · exact Option.noConfusion h
        case _ r2 heq =>
          cases h
          push_neg at hbound
          obtain ⟨hb1, hb2⟩ := hbound
          have hd2le := otfStep_dist2D_le geo fsr seg mesh cθ sθ (-1) r z zi hs
          have hd20 : 0 ≤ (otfStep geo fsr seg mesh cθ sθ (-1) r z
              zi).dist_2D := by
            rw [otfStep_dist2D]
            split
            · exact mul_nonneg hzd0 (le_of_lt hs)
            · linarith
          have hr2 : r2.events = [] := by
            refine ih _ _ _ r2 hs (Or.inr ⟨rfl, hc1⟩) hmono (by linarith)
              (by linarith) hb1 hb2 ?_ heq
            rw [if_neg (by decide : ¬ (-1 : ℤ) = 1)]
            by_cases hcross : zDist3D mesh cθ (-1) z zi ≤ r / sθ
            · have hzi2 : (otfStep geo fsr seg mesh cθ sθ (-1) r z zi).z_ind =
                  zi + -1 := by rw [otfStep_z_ind, if_pos hcross]
              have hzc : (otfStep geo fsr seg mesh cθ sθ (-1) r z
                  zi).z_coord = mesh.getD zi.toNat 0 := by
                rw [otfStep_z_coord, otfStep_length, if_pos hcross, hzd]
                field_simp
              rw [hzi2, hzc]
              rw [hzi2] at hb1
              rw [show zi.toNat = (zi + -1).toNat + 1 from by omega]
              refine hmono (zi + -1).toNat ?_
              omega
            · have hzi2 : (otfStep geo fsr seg mesh cθ sθ (-1) r z zi).z_ind =
                  zi := by rw [otfStep_z_ind, if_neg hcross]; ring
              have hzc : (otfStep geo fsr seg mesh cθ sθ (-1) r z
                  zi).z_coord = z + cθ * (r / sθ) := by
                rw [otfStep_z_coord, otfStep_length, if_neg hcross]
              rw [hzi2, hzc]
              have hlt := not_le.mp hcross
              rw [hzd] at hlt
              have := (lt_div_iff_of_neg hc1).mp hlt
              have hmc : cθ * (r / sθ) = r / sθ * cθ := mul_comm _ _
              linarith
          simp only [if_neg hnogt, List.nil_append, hr2]

/-- C9 witness: the no-emission property instantiated on a concrete 2D
    budget of 1/(2*10^10), half the tolerance, with cos theta = sin theta
    = 1 surrogates: the run suppresses its single candidate. -/
theorem transport2D_subtolerance_no_emission_witness :
    (⟨[], [1 / (2 * 10 ^ 10)], 5 + 1 / (2 * 10 ^ 10), 0, false⟩ :
      OTFResult).events = [] :=
  transport2D_subtolerance_no_emission exampleGeo exampleFSR ⟨1, 0, -1, -1⟩
    [0, 10] 1 1 1 1 3 (1 / (2 * 10 ^ 10)) 5 0
    ⟨[], [1 / (2 * 10 ^ 10)], 5 + 1 / (2 * 10 ^ 10), 0, false⟩
    (by decide) (by decide) (by decide) (by decide) (by decide) (by decide)
    (by decide) (by decide) (by decide)

/-- A concrete per-ray OTF input with a single 2D segment of length
    9/10^11, shorter than the suppression tolerance 1/10^10, whose 3D
    projection 3/(2*10^10) nevertheless exceeds the tolerance. -/
def exampleInpC : OTFInputs :=
  ⟨[⟨9 / 10 ^ 11, 0, -1, -1⟩], 1, 4 / 5, 3 / 5, 0, 0, 5, exampleGeo,
    some (1, [0, 10])⟩

/-- C9 counterexample: a 2D segment strictly shorter than the suppression
    tolerance for which traceSegmentsOTF emits one 3D segment (of length
    3/(2*10^10), above the tolerance), refuting the claim that a
    sub-tolerance 2D segment always yields zero emitted 3D segments. -/
theorem traceSegmentsOTF_subtolerance_2D_emits_counterexample :
    (∀ s ∈ exampleInpC.segments_2D, s._length < TINY_MOVE) ∧
    Option.map (fun r => r.events.map (fun e => e.length))
      (traceSegmentsOTF exampleInpC) = some [3 / (2 * 10 ^ 10)] := by
  decide

/-- C7 witness: the clamp-and-stop property instantiated on a concrete
    upward ray at height 9 in the one-cell mesh [0, 10]: the crossing of the
    top boundary clamps the index to 0 = num_fsrs - 1 and completes the
    traversal. -/
theorem traceSegmentsOTF_axial_clamp_stops_witness :
    ∃ res, transport2D exampleGeo exampleFSR ⟨3, 0, -1, -1⟩ [0, 10] 1 (4 / 5)
        (3 / 5) 1 (0 + 1) 3 9 0 = some res ∧
      res.z_ind = (if (0 : ℤ) + 1 < 0 then 0 else ((1 : ℕ) : ℤ) - 1) ∧
      res.complete = true ∧
      res.events.length + res.dropped.length = 1 :=
  traceSegmentsOTF_axial_clamp_stops.1 exampleGeo exampleFSR ⟨3, 0, -1, -1⟩
    [0, 10] 1 (4 / 5) (3 / 5) 1 0 3 9 0 (by decide) (by decide) (by decide)

/-- The list of integer loop indices [lo, hi) of a C for-loop
    `for (int i = lo; i < hi; i++)`. -/
def intRange (lo hi : ℤ) : List ℤ :=
  (List.range (hi - lo).toNat).map (fun k => lo + (k : ℤ))

/-- The four z-stack index ranges computed per axial cell by traceStackOTF
    (lines 576-587 and 667-680 of the source): lower partial crossings
    [start_track, min(start_full, end_full)), full crossings
    [start_full, end_full), straddling rays [end_full, start_full), and
    upper partial crossings [max(start_full, end_full), end_track), where
    start_track is clamped to at least 0 and end_track to at most
    num_z_stack. -/
def stackIndexRanges (z_min z_max first_track_lower_z first_track_upper_z
    z_spacing : ℚ) (num_z_stack : ℕ) :
    (ℤ × ℤ) × (ℤ × ℤ) × (ℤ × ℤ) × (ℤ × ℤ) :=
  let start_track :=
    max (Int.ceil ((z_min - first_track_upper_z) / z_spacing)) 0
  let start_full := Int.ceil ((z_min - first_track_lower_z) / z_spacing)
  let end_full := Int.ceil ((z_max - first_track_upper_z) / z_spacing)
  let end_track :=
    min (Int.ceil ((z_max - first_track_lower_z) / z_spacing))
      (num_z_stack : ℤ)
  ((start_track, min start_full end_full),
    (start_full, end_full),
    (end_full, start_full),
    (max start_full end_full, end_track))

/-- Membership of a stack index in one of the half-open index ranges. -/
def inIndexRange (p : ℤ × ℤ) (i : ℤ) : Prop := p.1 ≤ i ∧ i < p.2

/-- The segment events emitted by traceStackOTF for one axial cell of one 2D
    segment: the four classification ranges in source order (lower partial,
    full crossing or straddle, upper partial), with the CMFD surface
    resolution of each case. -/
def stackCellEvents (geo : Geometry) (seg : TrackSegment) (num_z_stack : ℕ)
    (z_spacing track_spacing_3D cos_theta sin_theta : ℚ) (sign : ℤ)
    (first_start_z first_end_z first_track_lower_z first_track_upper_z : ℚ)
    (fsr : ExtrudedFSR) (mesh : List ℚ) (z_ind : ℕ) : List SegEvent :=
  let fsr_id := fsr._fsr_ids.getD z_ind 0
  let material := fsr._materials.getD z_ind 0
  let cmfd_cell := geo.getCmfdCell fsr_id
  let z_min := mesh.getD z_ind 0
  let z_max := mesh.getD (z_ind + 1) 0
  let R := stackIndexRanges z_min z_max first_track_lower_z
    first_track_upper_z z_spacing num_z_stack
  let start_track := R.1.1
  let min_lower := R.1.2
  let start_full := R.2.1.1
  let end_full := R.2.1.2
  let max_upper := R.2.2.2.1
  let end_track := R.2.2.2.2
  let first_seg_len_lower := (first_track_upper_z - z_min) / |cos_theta|
  let g1 := (intRange start_track min_lower).flatMap (fun (i : ℤ) =>
    let seg_len_3D := first_seg_len_lower + (i : ℚ) * track_spacing_3D
    if seg_len_3D > TINY_MOVE then
      let surfaces : ℤ × ℤ :=
        match geo.cmfd with
        | some c =>
          let start_z := first_track_lower_z + (i : ℚ) * z_spacing
          let end_z := first_track_upper_z + (i : ℚ) * z_spacing
          let dist_to_corner := |(z_min - start_z) / cos_theta|
          if sign > 0 then
            let fwd := c.findCmfdSurfaceOTF cmfd_cell end_z
              seg._cmfd_surface_fwd
            let bwd0 : ℤ :=
              if dist_to_corner ≤ TINY_MOVE then seg._cmfd_surface_bwd
              else -1
            (fwd, c.findCmfdSurfaceOTF cmfd_cell z_min bwd0)
          else
            let fwd0 : ℤ :=
              if dist_to_corner ≤ TINY_MOVE then seg._cmfd_surface_fwd
              else -1
            let fwd := c.findCmfdSurfaceOTF cmfd_cell z_min fwd0
            (fwd, c.findCmfdSurfaceOTF cmfd_cell end_z seg._cmfd_surface_bwd)
        | none => (-1, -1)
      [⟨seg_len_3D, material, fsr_id, i, surfaces.1, surfaces.2⟩]
    else [])
  let g23 : List SegEvent :=
    if end_full > start_full then
      let seg_len_3D := seg._length / sin_theta
      if seg_len_3D > TINY_MOVE then
        (intRange start_full end_full).map (fun (i : ℤ) =>
          let surfaces : ℤ × ℤ :=
            match geo.cmfd with
            | some c =>
              let start_z := first_start_z + (i : ℚ) * z_spacing
              let end_z := first_end_z + (i : ℚ) * z_spacing
              (c.findCmfdSurfaceOTF cmfd_cell end_z seg._cmfd_surface_fwd,
                c.findCmfdSurfaceOTF cmfd_cell start_z seg._cmfd_surface_bwd)
            | none => (seg._cmfd_surface_fwd, seg._cmfd_surface_bwd)
          ⟨seg_len_3D, material, fsr_id, i, surfaces.1, surfaces.2⟩)
      else []
    else if start_full > end_full then
      let seg_len_3D := (z_max - z_min) / |cos_theta|
      if seg_len_3D > TINY_MOVE then
        (intRange end_full start_full).map (fun (i : ℤ) =>
          let surfaces : ℤ × ℤ :=
            match geo.cmfd with
            | some c =>
              let enter_z := if sign > 0 then z_min else z_max
              let exit_z := if sign > 0 then z_max else z_min
              let track_end_z := first_end_z + (i : ℚ) * z_spacing
              let fwd0 : ℤ :=
                if (track_end_z - exit_z) / cos_theta ≤ TINY_MOVE then
                  seg._cmfd_surface_fwd
                else -1
              let track_start_z := first_start_z + (i : ℚ) * z_spacing
              let bwd0 : ℤ :=
                if (enter_z - track_start_z) / cos_theta ≤ TINY_MOVE then
                  seg._cmfd_surface_bwd
                else -1
              (c.findCmfdSurfaceOTF cmfd_cell exit_z fwd0,
                c.findCmfdSurfaceOTF cmfd_cell enter_z bwd0)
            | none => (-1, -1)
          ⟨seg_len_3D, material, fsr_id, i, surfaces.1, surfaces.2⟩)
      else []
    else []
  let first_seg_len_upper := (z_max - first_track_lower_z) / |cos_theta|
  let g4 := (intRange max_upper end_track).flatMap (fun (i : ℤ) =>
    let seg_len_3D := first_seg_len_upper - (i : ℚ) * track_spacing_3D
    if seg_len_3D > TINY_MOVE then
      let surfaces : ℤ × ℤ :=
        match geo.cmfd with
        | some c =>
          let start_z := first_track_lower_z + (i : ℚ) * z_spacing
          let end_z := first_track_upper_z + (i : ℚ) * z_spacing
          let dist_to_corner := (end_z - z_max) / |cos_theta|
          if sign > 0 then
            let fwd0 : ℤ :=
              if dist_to_corner ≤ TINY_MOVE then seg._cmfd_surface_fwd
              else -1
            let fwd := c.findCmfdSurfaceOTF cmfd_cell z_max fwd0
            (fwd, c.findCmfdSurfaceOTF cmfd_cell start_z
              seg._cmfd_surface_bwd)
          else
            let fwd := c.findCmfdSurfaceOTF cmfd_cell start_z
              seg._cmfd_surface_fwd
            let bwd0 : ℤ :=
              if dist_to_corner ≤ TINY_MOVE then seg._cmfd_surface_bwd
              else -1
            (fwd, c.findCmfdSurfaceOTF cmfd_cell z_max bwd0)
        | none => (-1, -1)
      [⟨seg_len_3D, material, fsr_id, i, surfaces.1, surfaces.2⟩]
    else [])
  g1 ++ g23 ++ g4

/-- Stack-level parameters of traceStackOTF: the number of tracks in the
    z-stack, the axial track spacing, the geometry, and the optional global
    z mesh. -/
structure StackParams where
  num_z_stack : ℕ
  z_spacing : ℚ
  geometry : Geometry
  global_z_mesh : Option (ℕ × List ℚ)

/-- The per-2D-segment body of traceStackOTF: resolves the axial mesh of the
    segment's extruded FSR (or the global mesh), computes the reference
    track's entry/exit heights, and visits the axial cells in travel order,
    emitting each cell's stack events. -/
def traceStackSeg (sp : StackParams) (cos_theta sin_theta tan_theta : ℚ)
    (sign : ℤ) (track_spacing_3D : ℚ) (seg : TrackSegment)
    (first_start_z : ℚ) : List SegEvent :=
  let fsr := sp.geometry.getExtrudedFSR seg._region_id
  let nm : ℕ × List ℚ :=
    match sp.global_z_mesh with
    | some gm => gm
    | none => (fsr._num_fsrs, fsr._mesh)
  let first_end_z := first_start_z + seg._length / tan_theta
  let first_track_lower_z := if sign > 0 then first_start_z else first_end_z
  let first_track_upper_z := if sign > 0 then first_end_z else first_start_z
  (List.range nm.1).flatMap (fun z_iter =>
    let z_ind := if sign < 0 then nm.1 - z_iter - 1 else z_iter
    stackCellEvents sp.geometry seg sp.num_z_stack sp.z_spacing
      track_spacing_3D cos_theta sin_theta sign first_start_z first_end_z
      first_track_lower_z first_track_upper_z fsr nm.2 z_ind)

/-- The `for (int s=0; ...)` loop of traceStackOTF over the flattened
    track's 2D segments, advancing the reference track's start height after
    each segment. -/
def traceStackSegsLoop (sp : StackParams) (cos_theta sin_theta tan_theta : ℚ)
    (sign : ℤ) (track_spacing_3D : ℚ) :
    List TrackSegment → ℚ → List SegEvent
  | [], _ => []
  | seg :: rest, first_start_z =>
    traceStackSeg sp cos_theta sin_theta tan_theta sign track_spacing_3D seg
      first_start_z ++
    traceStackSegsLoop sp cos_theta sin_theta tan_theta sign track_spacing_3D
      rest (first_start_z + seg._length / tan_theta)

/-- TraverseSegments::traceStackOTF: computes the 3D segment events of an
    entire z-stack of parallel tracks in one sweep over the flattened
    track's 2D segments and the axial cells. -/
def traceStackOTF (sp : StackParams) (segments_2D : List TrackSegment)
    (cos_theta sin_theta cos_phi x_start_3D x_start_2D z0 : ℚ) :
    List SegEvent :=
  let tan_theta := sin_theta / cos_theta
  let sign := signOf cos_theta
  let track_spacing_3D := sp.z_spacing / |cos_theta|
  let start_dist_2D := (x_start_3D - x_start_2D) / cos_phi
  let start_z := z0 - start_dist_2D / tan_theta
  traceStackSegsLoop sp cos_theta sin_theta tan_theta sign track_spacing_3D
    segments_2D start_z

/-- C8: the four stack-index ranges computed per axial cell by traceStackOTF
    are pairwise disjoint, and the straddle range [end_full, start_full) is
    non-empty only when the full-crossing range [start_full, end_full) is
    empty. -/
theorem stackIndexRanges_disjoint :
    ∀ (z_min z_max first_track_lower_z first_track_upper_z z_spacing : ℚ)
      (num_z_stack : ℕ) (i : ℤ),
      (¬ (inIndexRange (stackIndexRanges z_min z_max first_track_lower_z
            first_track_upper_z z_spacing num_z_stack).1 i ∧
          inIndexRange (stackIndexRanges z_min z_max first_track_lower_z
            first_track_upper_z z_spacing num_z_stack).2.1 i)) ∧
      (¬ (inIndexRange (stackIndexRanges z_min z_max first_track_lower_z
            first_track_upper_z z_spacing num_z_stack).1 i ∧
          inIndexRange (stackIndexRanges z_min z_max first_track_lower_z
            first_track_upper_z z_spacing num_z_stack).2.2.1 i)) ∧
      (¬ (inIndexRange (stackIndexRanges z_min z_max first_track_lower_z
            first_track_upper_z z_spacing num_z_stack).1 i ∧
          inIndexRange (stackIndexRanges z_min z_max first_track_lower_z
            first_track_upper_z z_spacing num_z_stack).2.2.2 i)) ∧
      (¬ (inIndexRange (stackIndexRanges z_min z_max first_track_lower_z
            first_track_upper_z z_spacing num_z_stack).2.1 i ∧
          inIndexRange (stackIndexRanges z_min z_max first_track_lower_z
            first_track_upper_z z_spacing num_z_stack).2.2.1 i)) ∧
      (¬ (inIndexRange (stackIndexRanges z_min z_max first_track_lower_z
            first_track_upper_z z_spacing num_z_stack).2.1 i ∧
          inIndexRange (stackIndexRanges z_min z_max first_track_lower_z
            first_track_upper_z z_spacing num_z_stack).2.2.2 i)) ∧
      (¬ (inIndexRange (stackIndexRanges z_min z_max first_track_lower_z
            first_track_upper_z z_spacing num_z_stack).2.2.1 i ∧
          inIndexRange (stackIndexRanges z_min z_max first_track_lower_z
            first_track_upper_z z_spacing num_z_stack).2.2.2 i)) ∧
      ((∃ j, inIndexRange (stackIndexRanges z_min z_max first_track_lower_z
          first_track_upper_z z_spacing num_z_stack).2.2.1 j) →
        ∀ j, ¬ inIndexRange (stackIndexRanges z_min z_max first_track_lower_z
          first_track_upper_z z_spacing num_z_stack).2.1 j) := by
  intro z_min z_max lo up sp n i
  simp only [stackIndexRanges, inIndexRange]
  refine ⟨?_, ?_, ?_, ?_, ?_, ?_, ?_⟩
  · omega
  · omega
  · omega
  · omega
  · omega
  · omega
  · rintro ⟨j, hj⟩ j2
    omega

/-- C8 witness: the disjointness property instantiated at the concrete cell
    [0, 1] against a reference track spanning [1/4, 3/4] with spacing 1/2
    in a 3-track stack, at stack index 0. -/
theorem stackIndexRanges_disjoint_witness :
    (¬ (inIndexRange (stackIndexRanges 0 1 (1 / 4) (3 / 4) (1 / 2) 3).1 0 ∧
        inIndexRange (stackIndexRanges 0 1 (1 / 4) (3 / 4) (1 / 2) 3).2.1 0)) ∧
    (¬ (inIndexRange (stackIndexRanges 0 1 (1 / 4) (3 / 4) (1 / 2) 3).1 0 ∧
        inIndexRange (stackIndexRanges 0 1 (1 / 4) (3 / 4) (1 / 2) 3).2.2.1 0)) ∧
    (¬ (inIndexRange (stackIndexRanges 0 1 (1 / 4) (3 / 4) (1 / 2) 3).1 0 ∧
        inIndexRange (stackIndexRanges 0 1 (1 / 4) (3 / 4) (1 / 2) 3).2.2.2 0)) ∧
    (¬ (inIndexRange (stackIndexRanges 0 1 (1 / 4) (3 / 4) (1 / 2) 3).2.1 0 ∧
        inIndexRange (stackIndexRanges 0 1 (1 / 4) (3 / 4) (1 / 2) 3).2.2.1 0)) ∧
    (¬ (inIndexRange (stackIndexRanges 0 1 (1 / 4) (3 / 4) (1 / 2) 3).2.1 0 ∧
        inIndexRange (stackIndexRanges 0 1 (1 / 4) (3 / 4) (1 / 2) 3).2.2.2 0)) ∧
    (¬ (inIndexRange (stackIndexRanges 0 1 (1 / 4) (3 / 4) (1 / 2) 3).2.2.1 0 ∧
        inIndexRange (stackIndexRanges 0 1 (1 / 4) (3 / 4) (1 / 2) 3).2.2.2 0)) ∧
    ((∃ j, inIndexRange
        (stackIndexRanges 0 1 (1 / 4) (3 / 4) (1 / 2) 3).2.2.1 j) →
      ∀ j, ¬ inIndexRange
        (stackIndexRanges 0 1 (1 / 4) (3 / 4) (1 / 2) 3).2.1 j) :=
  stackIndexRanges_disjoint 0 1 (1 / 4) (3 / 4) (1 / 2) 3 0

/-- Every event emitted for one axial cell by the per-stack segmenter has
    length strictly greater than the suppression tolerance. -/
theorem stackCellEvents_gt_tiny (geo : Geometry) (seg : TrackSegment)
    (nzs : ℕ) (zsp tsp cθ sθ : ℚ) (sign : ℤ) (fsz fez ltz utz : ℚ)
    (fsr : ExtrudedFSR) (mesh : List ℚ) (zi : ℕ) :
    ∀ ev ∈ stackCellEvents geo seg nzs zsp tsp cθ sθ sign fsz fez ltz utz
      fsr mesh zi, TINY_MOVE < ev.length := by
  intro ev hev
  simp only [stackCellEvents] at hev
  rcases List.mem_append.mp hev with h | h
  swap
  · -- upper partial range
    rw [List.mem_flatMap] at h
    obtain ⟨i, _, hin⟩ := h
    simp only [List.mem_ite_nil_right] at hin
    obtain ⟨hgt, hin⟩ := hin
    simp only [List.mem_singleton] at hin
    subst hin
    exact hgt
  rcases List.mem_append.mp h with h | h
  · -- lower partial range
    rw [List.mem_flatMap] at h
    obtain ⟨i, _, hin⟩ := h
    simp only [List.mem_ite_nil_right] at hin
    obtain ⟨hgt, hin⟩ := hin
    simp only [List.mem_singleton] at hin
    subst hin
    exact hgt
  · -- full-crossing or straddle range
    split at h
    · simp only [List.mem_ite_nil_right] at h
      obtain ⟨hgt, h⟩ := h
      obtain ⟨i, _, heq⟩ := List.mem_map.mp h
      rw [← heq]
      exact hgt
    · split at h
      · simp only [List.mem_ite_nil_right] at h
        obtain ⟨hgt, h⟩ := h
        obtain ⟨i, _, heq⟩ := List.mem_map.mp h
        rw [← heq]
        exact hgt
      · simp at h

/-- Every event emitted by the per-stack segmenter across all segments and
    cells has length strictly greater than the suppression tolerance. -/
theorem traceStackSegsLoop_gt_tiny (sp : StackParams) (cθ sθ tθ : ℚ)
    (sign : ℤ) (tsp : ℚ) :
    ∀ segs fsz, ∀ ev ∈ traceStackSegsLoop sp cθ sθ tθ sign tsp segs fsz,
      TINY_MOVE < ev.length := by
  intro segs
  induction segs with
  | nil => intro fsz ev hev; simp [traceStackSegsLoop] at hev
  | cons seg rest ih =>
    intro fsz ev hev
    rw [traceStackSegsLoop] at hev
    rcases List.mem_append.mp hev with h | h
    · rw [traceStackSeg] at h
      simp only [List.mem_flatMap] at h
      obtain ⟨zit, _, hin⟩ := h
      exact stackCellEvents_gt_tiny _ _ _ _ _ _ _ _ _ _ _ _ _ _ _ ev hin
    · exact ih _ ev h

/-- C5: every segment event passed to a kernel by the on-the-fly segmenters
    — traceSegmentsOTF and all four classification ranges of traceStackOTF —
    has length strictly greater than the tolerance TINY_MOVE; a candidate
    whose length does not exceed the tolerance is suppressed, never
    emitted. -/
theorem emitted_segment_exceeds_tolerance :
    (∀ (inp : OTFInputs) (res : OTFResult),
      traceSegmentsOTF inp = some res →
      ∀ ev ∈ res.events, TINY_MOVE < ev.length)
    ∧ (∀ (sp : StackParams) (segs : List TrackSegment)
        (cθ sθ cφ x3 x2 z0 : ℚ),
      ∀ ev ∈ traceStackOTF sp segs cθ sθ cφ x3 x2 z0,
        TINY_MOVE < ev.length) := by
  constructor
  · intro inp res h ev hev
    rw [traceSegmentsOTF] at h
    simp only [] at h
    split at h
    · exact Option.noConfusion h
    case _ zi hzi =>
      exact traceSegsLoop_events_gt_tiny inp.geometry
        inp.global_z_mesh.isSome inp.cos_theta inp.sin_theta
        (signOf inp.cos_theta) _ _ _ _ _ _ _ _ h ev hev
  · intro sp segs cθ sθ cφ x3 x2 z0 ev hev
    rw [traceStackOTF] at hev
    exact traceStackSegsLoop_gt_tiny sp cθ sθ _ _ _ _ _ ev hev

/-- C5 witness: the tolerance bound instantiated on the concrete single-
    segment ray exampleInpA, whose run emits one segment of length 1. -/
theorem emitted_segment_exceeds_tolerance_witness :
    TINY_MOVE < (⟨1, 0, 0, 0, -1, -1⟩ : SegEvent).length :=
  emitted_segment_exceeds_tolerance.1 exampleInpA exampleResA (by decide)
    ⟨1, 0, 0, 0, -1, -1⟩ (by decide)

/-- Modelled from the spec: the C constant M_PI (its exact IEEE double
    value), used by traceStackTwoWay to reflect angles; it is defined in a
    header outside this source file. -/
def M_PI : ℚ := 884279719003555 / 281474976710656

/-- The CMFD-surface swap applied to each 2D segment by traceStackTwoWay. -/
def swapSurfaces (s : TrackSegment) : TrackSegment :=
  { s with _cmfd_surface_fwd := s._cmfd_surface_bwd,
           _cmfd_surface_bwd := s._cmfd_surface_fwd }

/-- The geometric and segment state read and mutated by traceStackTwoWay:
    the flattened 2D track's endpoints and azimuthal angle, the z-stack's
    first 3D track's endpoints and polar angle, and the flattened track's
    segment list (points are (x, y, z) triples). -/
structure TwoWayState where
  start_2D : ℚ × ℚ × ℚ
  end_2D : ℚ × ℚ × ℚ
  start_3D : ℚ × ℚ × ℚ
  end_3D : ℚ × ℚ × ℚ
  phi : ℚ
  theta : ℚ
  segments : List TrackSegment

/-- TraverseSegments::traceStackTwoWay: copies the stack's spatial data,
    traces forward, reflects the stack's geometry in place (swapping
    endpoints, reflecting the angles through pi, reversing the segment list
    and swapping each segment's CMFD surfaces), traces backward, and then
    restores the original description.  `cosF` and `sinF` abstract the real
    cosine and sine through which traceStackOTF consumes the angles.
    Returns the forward events, the backward events, and the final state of
    the ray objects. -/
def traceStackTwoWay (cosF sinF : ℚ → ℚ) (sp : StackParams)
    (st : TwoWayState) : List SegEvent × List SegEvent × TwoWayState :=
  let start_2D := st.start_2D
  let end_2D := st.end_2D
  let start_3D := st.start_3D
  let end_3D := st.end_3D
  let phi := st.phi
  let theta := st.theta
  let fwd_events := traceStackOTF sp st.segments (cosF st.theta)
    (sinF st.theta) (cosF st.phi) st.start_3D.1 st.start_2D.1 st.start_3D.2.2
  let st1 : TwoWayState :=
    { start_3D := end_3D, end_3D := start_3D, theta := M_PI - theta,
      start_2D := end_2D, end_2D := start_2D, phi := M_PI + phi,
      segments := (st.segments.reverse).map swapSurfaces }
  let bwd_events := traceStackOTF sp st1.segments (cosF st1.theta)
    (sinF st1.theta) (cosF st1.phi) st1.start_3D.1 st1.start_2D.1
    st1.start_3D.2.2
  let st2 : TwoWayState :=
    { start_3D := start_3D, end_3D := end_3D, theta := theta,
      start_2D := start_2D, end_2D := end_2D, phi := phi,
      segments := (st1.segments.reverse).map swapSurfaces }
  (fwd_events, bwd_events, st2)

/-- Swapping the CMFD surfaces of a segment twice is the identity. -/
theorem swapSurfaces_swapSurfaces (s : TrackSegment) :
    swapSurfaces (swapSurfaces s) = s := rfl

/-- C4: after traceStackTwoWay returns, every piece of geometric and segment
    state it mutated — the first 3D track's start point, end point and polar
    angle, the flattened 2D track's start point, end point and azimuthal
    angle, the order of the segment list, and every segment's
    forward/backward CMFD surface tags — is restored exactly to its value
    before the call. -/
theorem traceStackTwoWay_restores_state :
    ∀ (cosF sinF : ℚ → ℚ) (sp : StackParams) (st : TwoWayState),
      (traceStackTwoWay cosF sinF sp st).2.2 = st := by
  intro cosF sinF sp st
  rw [traceStackTwoWay]
  simp only []
  have hsegs : (((st.segments.reverse).map swapSurfaces).reverse).map
      swapSurfaces = st.segments := by
    rw [← List.map_reverse, List.reverse_reverse, List.map_map]
    have : swapSurfaces ∘ swapSurfaces = id := by
      funext s; exact swapSurfaces_swapSurfaces s
    rw [this, List.map_id]
  rw [hsegs]

/-- A flattened 2D track's indices as read by the dispatcher loops:
    its azimuthal index and its index within the azimuthal angle. -/
structure FlatTrack where
  azim : ℕ
  xy : ℕ
deriving DecidableEq

/-- The observable actions of loopOverTracksByStackOTF, in program order:
    resetting a kernel to a new track, tracing a z-stack, and invoking the
    completion hook onTrack with the 3D track at stack position z of the
    stack (a, i, p). -/
inductive LoopEvent where
  | newTrack (a i p : ℕ)
  | traceStack (a i p : ℕ)
  | onTrack (a i p z : ℕ)
deriving DecidableEq

/-- TraverseSegments::loopOverTracksByStackOTF as a sequence of observable
    actions: for every flattened 2D track and every polar angle, when
    kernels are supplied the stack is traced (after a newTrack reset), and
    the completion hook onTrack is then invoked with the first 3D track of
    the stack (stack position 0).  The tracks_per_stack table is read by the
    source function but does not drive any loop in it. -/
def loopOverTracksByStackOTF (flattened_tracks : List FlatTrack)
    (num_polar : ℕ) (tracks_per_stack : ℕ → ℕ → ℕ → ℕ)
    (kernelsPresent : Bool) : List LoopEvent :=
  flattened_tracks.flatMap (fun ft =>
    (List.range num_polar).flatMap (fun p =>
      (if kernelsPresent then
        [LoopEvent.newTrack ft.azim ft.xy p,
          LoopEvent.traceStack ft.azim ft.xy p]
      else []) ++ [LoopEvent.onTrack ft.azim ft.xy p 0]))

/-- The number of onTrack invocations in a sequence of loop actions. -/
def countOnTrack : List LoopEvent → ℕ
  | [] => 0
  | LoopEvent.onTrack _ _ _ _ :: l => countOnTrack l + 1
  | _ :: l => countOnTrack l

/-- countOnTrack distributes over append. -/
theorem countOnTrack_append (l1 l2 : List LoopEvent) :
    countOnTrack (l1 ++ l2) = countOnTrack l1 + countOnTrack l2 := by
  induction l1 with
  | nil => simp [countOnTrack]
  | cons e l ih =>
    cases e <;> simp [countOnTrack, ih] <;> omega

/-- The inner polar loop of loopOverTracksByStackOTF invokes onTrack exactly
    once per polar index. -/
theorem countOnTrack_inner (a i : ℕ) (kp : Bool) :
    ∀ l : List ℕ,
      countOnTrack (l.flatMap (fun p =>
        (if kp then [LoopEvent.newTrack a i p, LoopEvent.traceStack a i p]
        else []) ++ [LoopEvent.onTrack a i p 0])) = l.length := by
  intro l
  induction l with
  | nil => rfl
  | cons p rest ih =>
    rw [List.flatMap_cons, countOnTrack_append, ih]
    cases kp <;> simp [countOnTrack, Nat.add_comm]

/-- Decomposition helper: in a concatenation of [newTrack, traceStack,
    onTrack] blocks followed by a tail satisfying the same property, every
    onTrack action carries stack position 0 and is immediately preceded by
    the traceStack action of the same stack. -/
theorem onTrack_blocks_aux :
    ∀ (blocks : List (ℕ × ℕ × ℕ)) (l : List LoopEvent),
      (∀ a i p z pre post,
        l = pre ++ LoopEvent.onTrack a i p z :: post →
        z = 0 ∧ ∃ q, pre = q ++ [LoopEvent.traceStack a i p]) →
      ∀ a i p z pre post,
        blocks.flatMap (fun b =>
          [LoopEvent.newTrack b.1 b.2.1 b.2.2,
            LoopEvent.traceStack b.1 b.2.1 b.2.2,
            LoopEvent.onTrack b.1 b.2.1 b.2.2 0]) ++ l =
          pre ++ LoopEvent.onTrack a i p z :: post →
        z = 0 ∧ ∃ q, pre = q ++ [LoopEvent.traceStack a i p] := by
  intro blocks
  induction blocks with
  | nil =>
    intro l hl a i p z pre post heq
    rw [List.flatMap_nil, List.nil_append] at heq
    exact hl a i p z pre post heq
  | cons b rest ih =>
    intro l hl a i p z pre post heq
    rw [List.flatMap_cons, List.append_assoc] at heq
    simp only [List.cons_append, List.nil_append] at heq
    match pre, heq with
    | [], heq =>
      simp only [List.nil_append, List.cons.injEq] at heq
      exact absurd heq.1 (by simp)
    | [x], heq =>
      simp only [List.cons_append, List.nil_append, List.cons.injEq] at heq
      exact absurd heq.2.1 (by simp)
    | [x, y], heq =>
      simp only [List.cons_append, List.nil_append, List.cons.injEq] at heq
      obtain ⟨hx, hy, ho, -⟩ := heq
      rw [LoopEvent.onTrack.injEq] at ho
      obtain ⟨ha, hi, hp, hz⟩ := ho
      subst ha; subst hi; subst hp; subst hz
      exact ⟨rfl, [LoopEvent.newTrack b.1 b.2.1 b.2.2], by rw [hx, hy]; rfl⟩
    | x :: y :: w :: pre2, heq =>
      simp only [List.cons_append, List.cons.injEq] at heq
      obtain ⟨hx, hy, hw, hrest⟩ := heq
      obtain ⟨hz, q, hq⟩ := ih l hl a i p z pre2 post hrest
      refine ⟨hz, x :: y :: w :: q, ?_⟩
      rw [hq]
      rfl

/-- With kernels supplied, the stack loop is a concatenation of
    [newTrack, traceStack, onTrack] blocks, one per (flattened track, polar
    angle) pair. -/
theorem loopOverTracksByStackOTF_true_eq_blocks (fts : List FlatTrack)
    (np : ℕ) (tps : ℕ → ℕ → ℕ → ℕ) :
    loopOverTracksByStackOTF fts np tps true =
      (fts.flatMap (fun ft => (List.range np).map
        (fun p => (ft.azim, ft.xy, p)))).flatMap (fun b =>
          [LoopEvent.newTrack b.1 b.2.1 b.2.2,
            LoopEvent.traceStack b.1 b.2.1 b.2.2,
            LoopEvent.onTrack b.1 b.2.1 b.2.2 0]) := by
  rw [loopOverTracksByStackOTF, List.flatMap_assoc]
  congr 1
  funext ft
  rw [List.flatMap_map]
  simp

/-- C1 (amended): in ON-THE-FLY-BY-STACK mode the dispatcher loop invokes
    the completion hook onTrack exactly once per (flattened track, polar
    angle) pair — num_2D_tracks * num_polar invocations in total, not
    tracks_per_stack[a][i][p] per pair — each invocation carrying the
    stack's first 3D track (stack position 0) and occurring immediately
    after that stack's segments have been traced. -/
theorem loopOverTracksByStackOTF_once_per_stack :
    (∀ (fts : List FlatTrack) (np : ℕ) (tps : ℕ → ℕ → ℕ → ℕ) (kp : Bool),
      countOnTrack (loopOverTracksByStackOTF fts np tps kp) =
        fts.length * np)
    ∧ (∀ (fts : List FlatTrack) (np : ℕ) (tps : ℕ → ℕ → ℕ → ℕ)
        (a i p z : ℕ) (pre post : List LoopEvent),
      loopOverTracksByStackOTF fts np tps true =
        pre ++ LoopEvent.onTrack a i p z :: post →
      z = 0 ∧ ∃ q, pre = q ++ [LoopEvent.traceStack a i p]) := by
  constructor
  · intro fts np tps kp
    induction fts with
    | nil => simp [loopOverTracksByStackOTF, countOnTrack]
    | cons ft rest ih =>
      rw [loopOverTracksByStackOTF] at ih ⊢
      rw [List.flatMap_cons, countOnTrack_append, ih, countOnTrack_inner]
      simp [List.length_range, Nat.succ_mul, Nat.add_comm]
  · intro fts np tps a i p z pre post heq
    rw [loopOverTracksByStackOTF_true_eq_blocks fts np tps] at heq
    refine onTrack_blocks_aux (fts.flatMap fun ft =>
      List.map (fun p => (ft.azim, ft.xy, p)) (List.range np)) [] ?_
      a i p z pre post ?_
    · intro a2 i2 p2 z2 pre2 post2 h2
      exact absurd h2.symm (by simp)
    · rw [List.append_nil]
      exact heq

/-- C1 counterexample: with a single flattened track, one polar angle, and
    two tracks per z-stack, loopOverTracksByStackOTF invokes onTrack once —
    not tracks_per_stack = 2 times — for the (track, polar) pair. -/
theorem loopOverTracksByStackOTF_per_member_counterexample :
    countOnTrack (loopOverTracksByStackOTF [⟨0, 0⟩] 1 (fun _ _ _ => 2) true)
      = 1 ∧
    ((fun _ _ _ => 2 : ℕ → ℕ → ℕ → ℕ) 0 0 0 = 2) ∧ (1 : ℕ) ≠ 2 := by
  decide

/-- C1 witness: the once-per-pair property instantiated on the concrete
    one-track, one-polar loop, whose unique onTrack action carries stack
    position 0 and follows the traceStack action of its pair. -/
theorem loopOverTracksByStackOTF_once_per_stack_witness :
    (0 : ℕ) = 0 ∧ ∃ q, [LoopEvent.newTrack 0 0 0, LoopEvent.traceStack 0 0 0]
      = q ++ [LoopEvent.traceStack 0 0 0] :=
  loopOverTracksByStackOTF_once_per_stack.2 [⟨0, 0⟩] 1 (fun _ _ _ => 1)
    0 0 0 0 [LoopEvent.newTrack 0 0 0, LoopEvent.traceStack 0 0 0] []
    (by decide)
